import Mathlib

/-!
Verification of the GA4 auto-reporter dashboard (`app.py` and the settings
page). The definitions below shallowly embed the data-reshaping logic of the
source: the duration formatter, the KPI extraction and deltas, the two date
windows, the pandas group-by breakdowns, and the spreadsheet-backed site
registry operations.
-/

namespace GA4

/-! ## Duration formatting (`format_duration`, app.py lines 68-73)

Python semantics embedded over the rationals: `math.floor`, the Python `%`
operator (sign of the divisor), and Python `round` (round half to even). -/

/-- Python `math.floor` on a rational: the mathematical floor. -/
def mathFloor (q : ℚ) : ℤ := ⌊q⌋

/-- Python `%` on rationals: `a % b = a - b * floor(a / b)` (result has the
sign of the divisor). -/
def pymod (a b : ℚ) : ℚ := a - b * (mathFloor (a / b) : ℚ)

/-- Python built-in `round` to an integer: round half to even. -/
def pythonRound (q : ℚ) : ℤ :=
  let f := mathFloor q
  let frac := q - (f : ℚ)
  if frac < 1/2 then f
  else if 1/2 < frac then f + 1
  else if f % 2 = 0 then f else f + 1

/-- `format_duration(seconds)` from app.py: `"0秒"` for zero, otherwise
`f"{math.floor(seconds / 60)}分{round(seconds % 60)}秒"`. -/
def format_duration (seconds : ℚ) : String :=
  if seconds = 0 then "0秒"
  else toString (mathFloor (seconds / 60)) ++ "分"
       ++ toString (pythonRound (pymod seconds 60)) ++ "秒"

/-! ## KPI extraction and deltas (app.py lines 114-115 and 127-130)

A KPI query response is modelled as its list of rows, each row the list of
already-parsed metric values in the order
`[activeUsers, sessions, conversions, averageSessionDuration]`. -/

/-- `current_metrics`: first row of the KPI response, or `[0,0,0,0]` when the
response has no rows (app.py line 114). -/
def current_metrics (rows : List (List ℚ)) : List ℚ :=
  match rows with
  | [] => [0, 0, 0, 0]
  | r :: _ => r

/-- `prev_metrics`: second row of the KPI response, or `[0,0,0,0]` when the
response has fewer than two rows (app.py line 115). -/
def prev_metrics (rows : List (List ℚ)) : List ℚ :=
  if 1 < rows.length then rows.getD 1 [] else [0, 0, 0, 0]

/-- The four deltas rendered on the KPI cards (app.py lines 127-130): plain
index-wise subtraction `current[i] - prev[i]`. -/
def kpi_deltas (cur prev : List ℚ) : List ℚ :=
  [cur.getD 0 0 - prev.getD 0 0,
   cur.getD 1 0 - prev.getD 1 0,
   cur.getD 2 0 - prev.getD 2 0,
   cur.getD 3 0 - prev.getD 3 0]

/-! ## Date windows (app.py lines 104-109)

Dates are modelled as integer day numbers; `relativedelta(days=n)` subtracts
`n` days and the literal end date `"today"` denotes the run day itself. -/

/-- Current reporting window: `[today - 29 days, today]`. -/
def date_range_current (today : ℤ) : ℤ × ℤ := (today - 29, today)

/-- Previous reporting window: `[today - 59 days, today - 30 days]`. -/
def date_range_previous (today : ℤ) : ℤ × ℤ := (today - 59, today - 30)

/-- Inclusive length of a date window in days. -/
def spanDays (r : ℤ × ℤ) : ℤ := r.2 - r.1 + 1

/-! ## Detail breakdowns (app.py lines 118 and 135-137)

One detail row per dimension combination: channel (チャネル), device
(デバイス), age bracket (年齢層) and active users (ユーザー数).

`df.groupby(k)[v].sum()` sorts the distinct group keys ascending (pandas
default `sort=True`) and sums the values per group; `Series.nlargest(5)`
(default `keep="first"`) is a stable descending sort by value truncated to 5,
ties kept in series order; `sort_index()` is a sort by key ascending. -/

structure DetailRow where
  channel : String
  device : String
  age : String
  users : ℤ
  deriving DecidableEq

/-- Insert into a sorted list: stable insertion before the first element `b`
with `le a b`. -/
def insertBy (le : α → α → Bool) (a : α) : List α → List α
  | [] => [a]
  | b :: l => if le a b then a :: b :: l else b :: insertBy le a l

/-- Stable insertion sort with respect to the boolean comparison `le`. -/
def sortBy (le : α → α → Bool) (l : List α) : List α := l.foldr (insertBy le) []

/-- Lexicographic comparison of character lists by code point. -/
def charLeB : List Char → List Char → Bool
  | [], _ => true
  | _ :: _, [] => false
  | a :: as, b :: bs =>
    if a.toNat < b.toNat then true
    else if b.toNat < a.toNat then false
    else charLeB as bs

/-- Lexicographic string comparison by code point, as Python compares `str`
values. -/
def strLeB (a b : String) : Bool := charLeB a.data b.data

/-- Strict code-point lexicographic order on strings. -/
def strLt (a b : String) : Prop := strLeB a b = true ∧ a ≠ b

/-- Sum of the users column over the rows of group `k`. -/
def sumFor (key : DetailRow → String) (k : String) (rows : List DetailRow) : ℤ :=
  (rows.filter (fun r => key r == k)).foldl (fun s r => s + r.users) 0

/-- `df.groupby(key)["ユーザー数"].sum()`: the distinct keys sorted
ascending, each paired with its group sum. -/
def groupBySum (key : DetailRow → String) (rows : List DetailRow) :
    List (String × ℤ) :=
  (sortBy strLeB (rows.map key).dedup).map (fun k => (k, sumFor key k rows))

/-- Comparison used by `nlargest`: descending by summed value. -/
def valGeB (a b : String × ℤ) : Bool := decide (b.2 ≤ a.2)

/-- Comparison used by `sort_index`: ascending by group key. -/
def keyLeB (a b : String × ℤ) : Bool := strLeB a.1 b.1

/-- `df_details.groupby("チャネル")["ユーザー数"].sum().nlargest(5)`
(app.py line 135). -/
def df_channel (rows : List DetailRow) : List (String × ℤ) :=
  (sortBy valGeB (groupBySum (fun r => r.channel) rows)).take 5

/-- `df_details.groupby("年齢層")["ユーザー数"].sum().sort_index()`
(app.py line 136). -/
def df_age (rows : List DetailRow) : List (String × ℤ) :=
  sortBy keyLeB (groupBySum (fun r => r.age) rows)

/-- `df_details.groupby("デバイス")["ユーザー数"].sum()` (app.py line 137):
no further ordering or truncation is applied. -/
def df_device (rows : List DetailRow) : List (String × ℤ) :=
  groupBySum (fun r => r.device) rows

/-! ## Site registry (pages/1_⚙️_Settings.py)

The spreadsheet is the header row `["SiteName", "PropertyID"]` followed by
one row `[name, property_id]` per registered site. `sheet.find(q)` scans all
cells row-major and returns the first cell whose value equals `q`;
`sheet.delete_rows(row)` removes that whole row. The add form accepts a
submission exactly when both text inputs are non-empty (Python truthiness)
and then appends one row; no uniqueness check is performed. -/

/-- The sheet row storing one site record. -/
def rowOf (r : String × String) : List String := [r.1, r.2]

/-- The header row of the registry sheet. -/
def headerRow : List String := ["SiteName", "PropertyID"]

/-- The full sheet backing a list of site records. -/
def sheetOf (recs : List (String × String)) : List (List String) :=
  headerRow :: recs.map rowOf

/-- `sheet.find(q)`: index of the first row containing a cell equal to `q`,
scanning rows top to bottom (and cells left to right within a row). -/
def findRow (q : String) : List (List String) → Option Nat
  | [] => none
  | r :: rest => if q ∈ r then some 0 else (findRow q rest).map (· + 1)

/-- The delete button handler (Settings page lines 61-68): find the first
cell equal to the selected name and delete its row; do nothing when no cell
matches. -/
def delete_site (sheet : List (List String)) (q : String) : List (List String) :=
  match findRow q sheet with
  | none => sheet
  | some i => sheet.eraseIdx i

/-- The add-site form handler (Settings page lines 47-54): accepted exactly
when both fields are non-empty, in which case one row is appended. -/
def append_site (recs : List (String × String)) (name pid : String) :
    Option (List (String × String)) :=
  if name ≠ "" ∧ pid ≠ "" then some (recs ++ [(name, pid)]) else none

/-! ## Lemmas: insertion sort -/

theorem sortBy_cons (le : α → α → Bool) (a : α) (l : List α) :
    sortBy le (a :: l) = insertBy le a (sortBy le l) := rfl

theorem mem_insertBy (le : α → α → Bool) (a : α) (l : List α) (x : α) :
    x ∈ insertBy le a l ↔ x = a ∨ x ∈ l := by
  induction l with
  | nil => simp [insertBy]
  | cons b t ih =>
    by_cases h : le a b
    · simp [insertBy, h]
    · simp only [insertBy, if_neg h, List.mem_cons, ih]
      tauto

theorem length_insertBy (le : α → α → Bool) (a : α) (l : List α) :
    (insertBy le a l).length = l.length + 1 := by
  induction l with
  | nil => rfl
  | cons b t ih => by_cases h : le a b <;> simp [insertBy, h, ih]

theorem mem_sortBy (le : α → α → Bool) (l : List α) (x : α) :
    x ∈ sortBy le l ↔ x ∈ l := by
  induction l with
  | nil => simp [sortBy]
  | cons b t ih => rw [sortBy_cons, mem_insertBy, ih, List.mem_cons]

theorem length_sortBy (le : α → α → Bool) (l : List α) :
    (sortBy le l).length = l.length := by
  induction l with
  | nil => rfl
  | cons b t ih => rw [sortBy_cons, length_insertBy, ih, List.length_cons]

theorem nodup_insertBy (le : α → α → Bool) {a : α} {l : List α}
    (ha : a ∉ l) (hl : l.Nodup) : (insertBy le a l).Nodup := by
  induction l with
  | nil => simp [insertBy]
  | cons b t ih =>
    rw [List.mem_cons] at ha
    push_neg at ha
    rcases List.nodup_cons.mp hl with ⟨hb, ht⟩
    by_cases h : le a b
    · rw [insertBy, if_pos h]
      refine List.nodup_cons.mpr ⟨?_, hl⟩
      rw [List.mem_cons]
      rintro (h' | h')
      · exact ha.1 h'
      · exact ha.2 h'
    · rw [insertBy, if_neg h]
      refine List.nodup_cons.mpr ⟨?_, ih ha.2 ht⟩
      rw [mem_insertBy]
      rintro (h' | h')
      · exact ha.1 h'.symm
      · exact hb h'

theorem nodup_sortBy (le : α → α → Bool) {l : List α} (h : l.Nodup) :
    (sortBy le l).Nodup := by
  induction l with
  | nil => simp [sortBy]
  | cons a t ih =>
    rcases List.nodup_cons.mp h with ⟨ha, ht⟩
    rw [sortBy_cons]
    exact nodup_insertBy le (fun hm => ha ((mem_sortBy le t a).mp hm)) (ih ht)

theorem pairwise_insertBy (le : α → α → Bool)
    (htot : ∀ a b, ¬le a b = true → le b a = true)
    (htrans : ∀ a b c, le a b = true → le b c = true → le a c = true)
    {a : α} {l : List α} (hl : l.Pairwise (fun x y => le x y = true)) :
    (insertBy le a l).Pairwise (fun x y => le x y = true) := by
  induction l with
  | nil => simp [insertBy]
  | cons b t ih =>
    rcases List.pairwise_cons.mp hl with ⟨hb, ht⟩
    by_cases h : le a b
    · rw [insertBy, if_pos h]
      refine List.pairwise_cons.mpr ⟨?_, hl⟩
      intro x hx
      rcases List.mem_cons.mp hx with rfl | hx
      · exact h
      · exact htrans a b x h (hb x hx)
    · rw [insertBy, if_neg h]
      refine List.pairwise_cons.mpr ⟨?_, ih ht⟩
      intro y hy
      rcases (mem_insertBy le a t y).mp hy with h' | h'
      · rw [h']
        exact htot a b h
      · exact hb y h'

theorem pairwise_sortBy (le : α → α → Bool)
    (htot : ∀ a b, ¬le a b = true → le b a = true)
    (htrans : ∀ a b c, le a b = true → le b c = true → le a c = true)
    (l : List α) : (sortBy le l).Pairwise (fun x y => le x y = true) := by
  induction l with
  | nil => simp [sortBy]
  | cons a t ih =>
    rw [sortBy_cons]
    exact pairwise_insertBy le htot htrans ih

theorem sortBy_eq_of_pairwise (le : α → α → Bool) {l : List α}
    (h : l.Pairwise (fun x y => le x y = true)) : sortBy le l = l := by
  induction l with
  | nil => rfl
  | cons a t ih =>
    rcases List.pairwise_cons.mp h with ⟨ha, ht⟩
    rw [sortBy_cons, ih ht]
    cases t with
    | nil => rfl
    | cons b u => rw [insertBy, if_pos (ha b (List.mem_cons_self b u))]

/-! ## Lemmas: the string order -/

theorem charLeB_total (x y : List Char) :
    charLeB x y = true ∨ charLeB y x = true := by
  induction x generalizing y with
  | nil => left; rfl
  | cons a as ih =>
    cases y with
    | nil => right; rfl
    | cons b bs =>
      rcases Nat.lt_trichotomy a.toNat b.toNat with h | h | h
      · left; simp [charLeB, h]
      · rcases ih bs with h' | h'
        · left
          rw [charLeB, if_neg (by omega), if_neg (by omega)]
          exact h'
        · right
          rw [charLeB, if_neg (by omega), if_neg (by omega)]
          exact h'
      · right; simp [charLeB, h]

theorem charLeB_trans {x y z : List Char} (hxy : charLeB x y = true)
    (hyz : charLeB y z = true) : charLeB x z = true := by
  induction x generalizing y z with
  | nil => rfl
  | cons a as ih =>
    cases y with
    | nil => simp [charLeB] at hxy
    | cons b bs =>
      cases z with
      | nil => simp [charLeB] at hyz
      | cons c cs =>
        rw [charLeB] at hxy hyz ⊢
        split_ifs at hxy hyz ⊢ with h1 h2 h3 h4 h5 h6 <;>
          first
            | rfl
            | omega
            | simp at hxy
            | simp at hyz
            | (exact ih hxy hyz)

theorem strLeB_total (a b : String) : strLeB a b = true ∨ strLeB b a = true :=
  charLeB_total a.data b.data

theorem strLeB_trans {a b c : String} (h1 : strLeB a b = true)
    (h2 : strLeB b c = true) : strLeB a c = true :=
  charLeB_trans h1 h2

theorem strLeB_total' (a b : String) : ¬strLeB a b = true → strLeB b a = true :=
  fun h => (strLeB_total a b).resolve_left h

/-! ## Lemmas: ranked breakdowns -/

/-- The order in which `nlargest` delivers a value breakdown built from
key-sorted groups: strictly descending by summed value, ties ranked by
ascending group key. -/
def Rlex (a b : String × ℤ) : Prop :=
  b.2 < a.2 ∨ (a.2 = b.2 ∧ strLt a.1 b.1)

theorem pairwise_rlex_insertBy {a : String × ℤ} {l : List (String × ℤ)}
    (hl : l.Pairwise Rlex) (ha : ∀ x ∈ l, a.2 = x.2 → strLt a.1 x.1) :
    (insertBy valGeB a l).Pairwise Rlex := by
  induction l with
  | nil => simp [insertBy]
  | cons b t ih =>
    rcases List.pairwise_cons.mp hl with ⟨hb, ht⟩
    by_cases h : valGeB a b
    · rw [insertBy, if_pos h]
      rw [valGeB, decide_eq_true_eq] at h
      refine List.pairwise_cons.mpr ⟨?_, hl⟩
      intro x hx
      rcases List.mem_cons.mp hx with h' | h'
      · rw [h']
        rcases lt_or_eq_of_le h with hv | hv
        · exact Or.inl hv
        · exact Or.inr ⟨hv.symm, ha b (List.mem_cons_self b t) hv.symm⟩
      · have hbx := hb x h'
        have hxa : x.2 ≤ a.2 := by
          rcases hbx with hv | ⟨hv, _⟩ <;> omega
        rcases lt_or_eq_of_le hxa with hv | hv
        · exact Or.inl hv
        · exact Or.inr ⟨hv.symm, ha x (List.mem_cons_of_mem b h') hv.symm⟩
    · rw [insertBy, if_neg h]
      rw [valGeB, decide_eq_true_eq] at h
      push_neg at h
      refine List.pairwise_cons.mpr
        ⟨?_, ih ht (fun x hx hv => ha x (List.mem_cons_of_mem b hx) hv)⟩
      intro y hy
      rcases (mem_insertBy valGeB a t y).mp hy with h' | h'
      · rw [h']
        exact Or.inl h
      · exact hb y h'

theorem pairwise_rlex_sortBy {l : List (String × ℤ)}
    (h : l.Pairwise (fun p q => strLt p.1 q.1)) :
    (sortBy valGeB l).Pairwise Rlex := by
  induction l with
  | nil => simp [sortBy]
  | cons a t ih =>
    rcases List.pairwise_cons.mp h with ⟨ha, ht⟩
    rw [sortBy_cons]
    refine pairwise_rlex_insertBy (ih ht) ?_
    intro x hx _
    exact ha x ((mem_sortBy valGeB t x).mp hx)

/-! ## Lemmas: group-by-and-sum -/

theorem groupBySum_map_fst (key : DetailRow → String) (rows : List DetailRow) :
    (groupBySum key rows).map Prod.fst = sortBy strLeB (rows.map key).dedup := by
  rw [groupBySum, List.map_map]
  exact List.map_id _

theorem pairwise_strLt_groupBySum (key : DetailRow → String)
    (rows : List DetailRow) :
    (groupBySum key rows).Pairwise (fun p q => strLt p.1 q.1) := by
  rw [groupBySum]
  refine List.pairwise_map.mpr ?_
  have h1 := pairwise_sortBy strLeB strLeB_total' (fun a b c => strLeB_trans)
    ((rows.map key).dedup)
  have h2 : (sortBy strLeB (rows.map key).dedup).Pairwise (· ≠ ·) :=
    nodup_sortBy strLeB (List.nodup_dedup (rows.map key))
  exact (h1.and h2).imp (fun hab => ⟨hab.1, hab.2⟩)

theorem length_groupBySum (key : DetailRow → String) (rows : List DetailRow) :
    (groupBySum key rows).length = (rows.map key).dedup.length := by
  rw [groupBySum, List.length_map, length_sortBy]

theorem mem_map_fst_groupBySum (key : DetailRow → String)
    (rows : List DetailRow) (k : String) :
    k ∈ (groupBySum key rows).map Prod.fst ↔ k ∈ rows.map key := by
  rw [groupBySum_map_fst, mem_sortBy, List.mem_dedup]

theorem nodup_map_fst_groupBySum (key : DetailRow → String)
    (rows : List DetailRow) :
    ((groupBySum key rows).map Prod.fst).Nodup := by
  rw [groupBySum_map_fst]
  exact nodup_sortBy strLeB (List.nodup_dedup (rows.map key))

theorem snd_eq_sumFor_of_mem_groupBySum {key : DetailRow → String}
    {rows : List DetailRow} {p : String × ℤ} (h : p ∈ groupBySum key rows) :
    p.2 = sumFor key p.1 rows := by
  rw [groupBySum] at h
  rcases List.mem_map.mp h with ⟨k, _, rfl⟩
  rfl

theorem df_age_eq_groupBySum (rows : List DetailRow) :
    df_age rows = groupBySum (fun r => r.age) rows := by
  rw [df_age]
  apply sortBy_eq_of_pairwise
  exact (pairwise_strLt_groupBySum (fun r => r.age) rows).imp (fun h => h.1)

/-! ## Lemmas: the registry sheet -/

theorem eraseIdx_length_self (l : List α) : l.eraseIdx l.length = l := by
  induction l with
  | nil => rfl
  | cons a t ih => rw [List.length_cons, List.eraseIdx_cons_succ, ih]

theorem eraseIdx_map (f : α → β) (l : List α) (i : ℕ) :
    (l.map f).eraseIdx i = (l.eraseIdx i).map f := by
  induction l generalizing i with
  | nil => rfl
  | cons a t ih =>
    cases i with
    | zero => rfl
    | succ n => rw [List.map_cons, List.eraseIdx_cons_succ,
        List.eraseIdx_cons_succ, ih, List.map_cons]

theorem findRow_map_rowOf (name : String) (recs : List (String × String))
    (hpid : ∀ r ∈ recs.take (recs.findIdx fun r => r.1 == name), r.2 ≠ name) :
    findRow name (recs.map rowOf) =
      if recs.any (fun r => r.1 == name) then
        some (recs.findIdx fun r => r.1 == name)
      else none := by
  induction recs with
  | nil => rfl
  | cons r t ih =>
    by_cases hr : r.1 = name
    · have hmem : name ∈ rowOf r := by
        rw [rowOf, hr]
        exact List.mem_cons_self name [r.2]
      have hb : (r.1 == name) = true := beq_iff_eq.mpr hr
      rw [List.map_cons]
      simp only [findRow, if_pos hmem]
      rw [if_pos (by simp [List.any_cons, hr]),
        List.findIdx_cons, hb, cond_true]
    · have hb : (r.1 == name) = false := beq_eq_false_iff_ne.mpr hr
      have hfi : ((r :: t).findIdx fun r => r.1 == name) =
          (t.findIdx fun r => r.1 == name) + 1 := by
        rw [List.findIdx_cons, hb, cond_false]
      have hr2 : r.2 ≠ name := by
        apply hpid r
        rw [hfi, List.take_succ_cons]
        exact List.mem_cons_self r _
      have hmem : name ∉ rowOf r := by
        rw [rowOf, List.mem_cons, List.mem_cons]
        rintro (h' | h' | h')
        · exact hr h'.symm
        · exact hr2 h'.symm
        · exact List.not_mem_nil name h'
      have hpid' : ∀ x ∈ t.take (t.findIdx fun r => r.1 == name), x.2 ≠ name := by
        intro x hx
        apply hpid x
        rw [hfi, List.take_succ_cons]
        exact List.mem_cons_of_mem r hx
      rw [List.map_cons]
      simp only [findRow, if_neg hmem]
      rw [ih hpid']
      by_cases ha : t.any (fun r => r.1 == name)
      · rw [if_pos ha, if_pos (by simp [List.any_cons, ha]), hfi,
          Option.map_some']
      · rw [if_neg ha, if_neg (by simp [List.any_cons, ha, hr]),
          Option.map_none']

theorem pythonRound_intCast (n : ℤ) : pythonRound (n : ℚ) = n := by
  simp [pythonRound, mathFloor]

/-! ## Concrete example inputs -/

/-- Six distinct channels with a tie at value 5 between "b" (earlier input
row) and "a" (later input row). -/
def tieRows : List DetailRow :=
  [⟨"b", "x", "x", 5⟩, ⟨"a", "x", "x", 5⟩, ⟨"c", "x", "x", 10⟩,
   ⟨"d", "x", "x", 9⟩, ⟨"e", "x", "x", 8⟩, ⟨"f", "x", "x", 7⟩]

/-- Two devices whose ascending key order disagrees with descending value
order. -/
def deviceRows : List DetailRow :=
  [⟨"c", "desktop", "a", 10⟩, ⟨"c", "mobile", "a", 50⟩]

/-! ## Claims -/

/-- C1: `format_duration` returns the literal "0秒" at zero and otherwise
the label built from minutes = floor(seconds / 60) and remaining seconds =
round(seconds mod 60), with no clamping or sign special-casing; in
particular `format_duration 0 = "0秒"`, `format_duration 125 = "2分5秒"`,
`format_duration 59 = "0分59秒"`, and the same rule applies unchanged to a
negative input (-30 gives "-1分30秒") and a fractional input (5/2 gives
"0分2秒"). -/
theorem format_duration_c1 :
    format_duration 0 = "0秒" ∧
    format_duration 125 = "2分5秒" ∧
    format_duration 59 = "0分59秒" ∧
    format_duration (-30) = "-1分30秒" ∧
    format_duration (5/2) = "0分2秒" ∧
    ∀ s : ℚ, s ≠ 0 → format_duration s =
      toString (mathFloor (s / 60)) ++ "分"
        ++ toString (pythonRound (pymod s 60)) ++ "秒" := by
  refine ⟨by simp [format_duration], ?_, ?_, ?_, ?_, ?_⟩
  · rw [format_duration, if_neg (by norm_num)]
    have h1 : mathFloor (125 / 60 : ℚ) = 2 := by norm_num [mathFloor]
    have h2 : pymod 125 60 = 5 := by norm_num [pymod, mathFloor]
    rw [h1, h2, show ((5:ℚ)) = ((5:ℤ):ℚ) by norm_num, pythonRound_intCast]
    decide
  · rw [format_duration, if_neg (by norm_num)]
    have h1 : mathFloor (59 / 60 : ℚ) = 0 := by norm_num [mathFloor]
    have h2 : pymod 59 60 = 59 := by norm_num [pymod, mathFloor]
    rw [h1, h2, show ((59:ℚ)) = ((59:ℤ):ℚ) by norm_num, pythonRound_intCast]
    decide
  · rw [format_duration, if_neg (by norm_num)]
    have h1 : mathFloor (-30 / 60 : ℚ) = -1 := by norm_num [mathFloor]
    have h2 : pymod (-30) 60 = 30 := by norm_num [pymod, mathFloor]
    rw [h1, h2, show ((30:ℚ)) = ((30:ℤ):ℚ) by norm_num, pythonRound_intCast]
    decide
  · rw [format_duration, if_neg (by norm_num)]
    have h1 : mathFloor (5 / 2 / 60 : ℚ) = 0 := by norm_num [mathFloor]
    have h2 : pymod (5/2) 60 = 5/2 := by norm_num [pymod, mathFloor]
    have h3 : pythonRound (5/2 : ℚ) = 2 := by
      rw [pythonRound]
      have hf : mathFloor (5 / 2 : ℚ) = 2 := by norm_num [mathFloor]
      rw [hf]
      norm_num
    rw [h1, h2, h3]
    decide
  · intro s hs
    rw [format_duration, if_neg hs]

/-- Witness for C1: the general non-zero formatting rule applied at 125. -/
theorem format_duration_c1_witness :
    format_duration 125 =
      toString (mathFloor ((125 : ℚ) / 60)) ++ "分"
        ++ toString (pythonRound (pymod 125 60)) ++ "秒" :=
  format_duration_c1.2.2.2.2.2 125 (by norm_num)

/-- C2: each rendered KPI delta is the plain signed difference
`current[i] - prev[i]` with no clamping, for all four metric indices and any
two metric vectors (the all-zero default included); on the spec's example
vectors the deltas are [20, 10, 2, 30]. -/
theorem kpi_deltas_c2 :
    (∀ (cur prev : List ℚ) (i : ℕ), i < 4 →
      (kpi_deltas cur prev).getD i 0 = cur.getD i 0 - prev.getD i 0) ∧
    kpi_deltas [100, 150, 10, 125] [80, 140, 8, 95] = [20, 10, 2, 30] := by
  constructor
  · intro cur prev i hi
    interval_cases i <;> rfl
  · norm_num [kpi_deltas]

/-- Witness for C2 at index 3 of the spec's example vectors. -/
theorem kpi_deltas_c2_witness :
    (kpi_deltas [100, 150, 10, 125] [80, 140, 8, 95]).getD 3 0 =
      ([100, 150, 10, 125] : List ℚ).getD 3 0
        - ([80, 140, 8, 95] : List ℚ).getD 3 0 :=
  kpi_deltas_c2.1 [100, 150, 10, 125] [80, 140, 8, 95] 3 (by norm_num)

/-- C3 counterexample: on `tieRows` the channel breakdown keeps the tied
group "a" (the smaller key) and drops "b", even though "b" appears first in
the input rows — the tie-break is the group-by key order, not first-seen
order. -/
theorem channel_tiebreak_c3_cex :
    df_channel tieRows = [("c", 10), ("d", 9), ("e", 8), ("f", 7), ("a", 5)] ∧
    ("b", (5 : ℤ)) ∉ df_channel tieRows ∧
    ((tieRows.map fun r => r.channel).dedup).length = 6 := by decide

/-- C3 (amended): with more than 5 distinct channels the channel breakdown
has exactly 5 entries, each paired with the summed users of its group,
sorted descending by summed value with ties broken by ascending channel key
(the order produced by the group-by), not by first appearance in the input
rows. -/
theorem channel_top5_c3 (rows : List DetailRow)
    (h : 5 < ((rows.map fun r => r.channel).dedup).length) :
    (df_channel rows).length = 5 ∧
    (df_channel rows).Pairwise Rlex ∧
    ∀ p ∈ df_channel rows, p.2 = sumFor (fun r => r.channel) p.1 rows := by
  refine ⟨?_, ?_, ?_⟩
  · rw [df_channel, List.length_take, length_sortBy, length_groupBySum]
    exact min_eq_left (by omega)
  · exact List.Pairwise.sublist (List.take_sublist 5 _)
      (pairwise_rlex_sortBy (pairwise_strLt_groupBySum _ rows))
  · intro p hp
    exact snd_eq_sumFor_of_mem_groupBySum
      ((mem_sortBy valGeB _ p).mp (List.mem_of_mem_take hp))

/-- Witness for C3 on the concrete six-channel input. -/
theorem channel_top5_c3_witness :
    (df_channel tieRows).length = 5 ∧
    (df_channel tieRows).Pairwise Rlex ∧
    ∀ p ∈ df_channel tieRows, p.2 = sumFor (fun r => r.channel) p.1 tieRows :=
  channel_top5_c3 tieRows (by decide)

/-- C4 counterexample: the device breakdown of `deviceRows` is ordered
"desktop" (10) before "mobile" (50): ascending key order, not descending
summed value as the claim states. -/
theorem device_order_c4_cex :
    df_device deviceRows = [("desktop", 10), ("mobile", 50)] ∧
    ¬ (df_device deviceRows).Pairwise (fun p q => q.2 ≤ p.2) := by decide

/-- C4 (amended): the device breakdown has one entry per distinct device
category with its group sum, untruncated, ordered by ascending device key
(the pandas group-by key order; no value ordering is applied to it), while
the channel breakdown is truncated to the top 5 by descending value and the
age breakdown is by key, untruncated. -/
theorem breakdown_shapes_c4 (rows : List DetailRow) (_hne : rows ≠ []) :
    (∀ k, k ∈ (df_device rows).map Prod.fst ↔ k ∈ rows.map (fun r => r.device)) ∧
    ((df_device rows).map Prod.fst).Nodup ∧
    (df_device rows).Pairwise (fun p q => strLt p.1 q.1) ∧
    (∀ p ∈ df_device rows, p.2 = sumFor (fun r => r.device) p.1 rows) ∧
    (df_channel rows).length = min 5 ((rows.map fun r => r.channel).dedup).length ∧
    (df_channel rows).Pairwise Rlex ∧
    (∀ k, k ∈ (df_age rows).map Prod.fst ↔ k ∈ rows.map (fun r => r.age)) ∧
    (df_age rows).Pairwise (fun p q => strLt p.1 q.1) := by
  refine ⟨fun k => mem_map_fst_groupBySum _ rows k,
    nodup_map_fst_groupBySum _ rows,
    pairwise_strLt_groupBySum _ rows,
    fun p hp => snd_eq_sumFor_of_mem_groupBySum hp,
    ?_, ?_, ?_, ?_⟩
  · rw [df_channel, List.length_take, length_sortBy, length_groupBySum]
  · exact List.Pairwise.sublist (List.take_sublist 5 _)
      (pairwise_rlex_sortBy (pairwise_strLt_groupBySum _ rows))
  · rw [df_age_eq_groupBySum rows]
    exact fun k => mem_map_fst_groupBySum _ rows k
  · rw [df_age_eq_groupBySum rows]
    exact pairwise_strLt_groupBySum _ rows

/-- Witness for C4 on the concrete two-device input. -/
theorem breakdown_shapes_c4_witness :
    (∀ k, k ∈ (df_device deviceRows).map Prod.fst ↔
      k ∈ deviceRows.map (fun r => r.device)) ∧
    ((df_device deviceRows).map Prod.fst).Nodup ∧
    (df_device deviceRows).Pairwise (fun p q => strLt p.1 q.1) ∧
    (∀ p ∈ df_device deviceRows,
      p.2 = sumFor (fun r => r.device) p.1 deviceRows) ∧
    (df_channel deviceRows).length =
      min 5 ((deviceRows.map fun r => r.channel).dedup).length ∧
    (df_channel deviceRows).Pairwise Rlex ∧
    (∀ k, k ∈ (df_age deviceRows).map Prod.fst ↔
      k ∈ deviceRows.map (fun r => r.age)) ∧
    (df_age deviceRows).Pairwise (fun p q => strLt p.1 q.1) :=
  breakdown_shapes_c4 deviceRows (by decide)

/-- C5: the age breakdown contains every distinct age bracket (no
truncation), keys in strictly ascending order, each paired with its summed
users; the empty input gives the empty mapping rather than an error. -/
theorem age_breakdown_c5 (rows : List DetailRow) :
    (∀ k, k ∈ (df_age rows).map Prod.fst ↔ k ∈ rows.map (fun r => r.age)) ∧
    ((df_age rows).map Prod.fst).Nodup ∧
    (df_age rows).Pairwise (fun p q => strLt p.1 q.1) ∧
    (∀ p ∈ df_age rows, p.2 = sumFor (fun r => r.age) p.1 rows) ∧
    df_age ([] : List DetailRow) = [] := by
  rw [df_age_eq_groupBySum rows]
  exact ⟨fun k => mem_map_fst_groupBySum _ rows k,
    nodup_map_fst_groupBySum _ rows,
    pairwise_strLt_groupBySum _ rows,
    fun p hp => snd_eq_sumFor_of_mem_groupBySum hp,
    rfl⟩

/-- C6: a KPI response with zero rows yields the defaults
current = prev = [0,0,0,0] (total defaulting, nothing fails), and a response
with exactly one row yields that row as the current vector and [0,0,0,0] as
the previous vector. -/
theorem kpi_defaults_c6 :
    current_metrics [] = [0, 0, 0, 0] ∧ prev_metrics [] = [0, 0, 0, 0] ∧
    ∀ r : List ℚ, current_metrics [r] = r ∧ prev_metrics [r] = [0, 0, 0, 0] := by
  refine ⟨rfl, rfl, fun r => ⟨rfl, ?_⟩⟩
  rw [prev_metrics, if_neg (by simp)]

/-- C7: for every run day the current window is [today - 29, today], the
previous window is [today - 59, today - 30], the previous window ends
exactly one day before the current one starts, and both windows span
exactly 30 days inclusive. -/
theorem date_windows_c7 (t : ℤ) :
    date_range_current t = (t - 29, t) ∧
    date_range_previous t = (t - 59, t - 30) ∧
    (date_range_previous t).2 = (date_range_current t).1 - 1 ∧
    spanDays (date_range_current t) = 30 ∧
    spanDays (date_range_previous t) = 30 := by
  refine ⟨rfl, rfl, ?_, ?_, ?_⟩
  · show t - 30 = t - 29 - 1
    omega
  · show t - (t - 29) + 1 = 30
    omega
  · show t - 30 - (t - 59) + 1 = 30
    omega

/-- C8 counterexample: registry [("A","42"), ("42","99")], delete "42": the
first cell equal to "42" in row-major order is the property-id cell of the
first record, so the record ("A","42") is removed — not the first record
whose name is "42". -/
theorem delete_site_c8_cex :
    delete_site (sheetOf [("A", "42"), ("42", "99")]) "42" =
      sheetOf [("42", "99")] ∧
    sheetOf [("42", "99")] ≠ sheetOf [("A", "42")] := by decide

/-- C8 (amended): provided the deleted name differs from both header labels
and from the property id of every record stored before the first name
match, delete removes exactly the first record whose name matches and
leaves all others unchanged, and it is a no-op when no record matches.
Without that proviso `sheet.find` can match a property-id or header cell
first and delete that row instead. -/
theorem delete_site_c8 (recs : List (String × String)) (name : String)
    (h1 : name ≠ "SiteName") (h2 : name ≠ "PropertyID")
    (hpid : ∀ r ∈ recs.take (recs.findIdx fun r => r.1 == name), r.2 ≠ name) :
    delete_site (sheetOf recs) name =
      sheetOf (recs.eraseIdx (recs.findIdx fun r => r.1 == name)) ∧
    ((∀ r ∈ recs, r.1 ≠ name) →
      delete_site (sheetOf recs) name = sheetOf recs) := by
  have hhead : name ∉ headerRow := by
    rw [headerRow, List.mem_cons, List.mem_cons]
    rintro (h' | h' | h')
    · exact h1 h'
    · exact h2 h'
    · exact List.not_mem_nil name h'
  have hfr : findRow name (sheetOf recs) =
      (findRow name (recs.map rowOf)).map (· + 1) := by
    rw [sheetOf]
    simp only [findRow, if_neg hhead]
  rw [findRow_map_rowOf name recs hpid] at hfr
  have hmain : delete_site (sheetOf recs) name =
      sheetOf (recs.eraseIdx (recs.findIdx fun r => r.1 == name)) := by
    by_cases ha : recs.any (fun r => r.1 == name)
    · rw [if_pos ha, Option.map_some'] at hfr
      simp only [delete_site, hfr]
      rw [sheetOf, List.eraseIdx_cons_succ, eraseIdx_map, sheetOf]
    · rw [if_neg ha, Option.map_none'] at hfr
      have hj : (recs.findIdx fun r => r.1 == name) = recs.length := by
        rw [List.findIdx_eq_length]
        intro x hx
        cases hb : (x.1 == name) with
        | false => rfl
        | true => exact absurd (List.any_eq_true.mpr ⟨x, hx, hb⟩) ha
      simp only [delete_site, hfr]
      rw [hj, eraseIdx_length_self]
  refine ⟨hmain, fun hnone => ?_⟩
  have hj : (recs.findIdx fun r => r.1 == name) = recs.length := by
    rw [List.findIdx_eq_length]
    intro x hx
    exact beq_eq_false_iff_ne.mpr (hnone x hx)
  rw [hmain, hj, eraseIdx_length_self]

/-- Witness for C8 on a one-record registry with no collisions. -/
theorem delete_site_c8_witness :
    delete_site (sheetOf [("Acme", "123")]) "Acme" =
      sheetOf (([("Acme", "123")] : List (String × String)).eraseIdx
        (([("Acme", "123")] : List (String × String)).findIdx
          fun r => r.1 == "Acme")) ∧
    ((∀ r ∈ ([("Acme", "123")] : List (String × String)), r.1 ≠ "Acme") →
      delete_site (sheetOf [("Acme", "123")]) "Acme" =
        sheetOf [("Acme", "123")]) :=
  delete_site_c8 [("Acme", "123")] "Acme" (by decide) (by decide) (by decide)

/-- C9 counterexample: starting from a registry whose names are unique,
appending the duplicate name "A" is accepted and the result contains two
records named "A" — uniqueness is not preserved by the write path. -/
theorem append_site_c9_cex :
    (([("A", "1")] : List (String × String)).map Prod.fst).Nodup ∧
    append_site [("A", "1")] "A" "2" = some [("A", "1"), ("A", "2")] ∧
    ¬ ((([("A", "1"), ("A", "2")] : List (String × String)).map
        Prod.fst).Nodup) := by decide

/-- C9 (amended): an accepted append has a non-empty name and property id
and appends exactly that one record, so non-emptiness of every name is
preserved; name uniqueness, however, is not checked and is not preserved. -/
theorem append_site_c9 (recs : List (String × String)) (name pid : String)
    (s' : List (String × String)) (h : append_site recs name pid = some s') :
    name ≠ "" ∧ pid ≠ "" ∧ s' = recs ++ [(name, pid)] ∧
    ((∀ r ∈ recs, r.1 ≠ "") → ∀ r ∈ s', r.1 ≠ "") := by
  rw [append_site] at h
  split_ifs at h with hc
  · rcases hc with ⟨hn, hp⟩
    injection h with h
    refine ⟨hn, hp, h.symm, ?_⟩
    intro hall r hr
    rw [← h] at hr
    rcases List.mem_append.mp hr with h' | h'
    · exact hall r h'
    · rw [List.mem_singleton] at h'
      rw [h']
      exact hn

/-- Witness for C9: appending a fresh non-empty record. -/
theorem append_site_c9_witness :
    ("B" : String) ≠ "" ∧ ("2" : String) ≠ "" ∧
    ([("A", "1"), ("B", "2")] : List (String × String)) =
      [("A", "1")] ++ [("B", "2")] ∧
    ((∀ r ∈ ([("A", "1")] : List (String × String)), r.1 ≠ "") →
      ∀ r ∈ ([("A", "1"), ("B", "2")] : List (String × String)), r.1 ≠ "") :=
  append_site_c9 [("A", "1")] "B" "2" [("A", "1"), ("B", "2")] (by decide)

/-- C10: there is a positive fractional seconds value, 59.5, whose label has
seconds component 60 — "0分60秒" — instead of carrying into the minutes
component as "1分0秒": the minute and second parts are computed
independently, so the seconds component is not guaranteed to lie in
[0, 59]. -/
theorem format_duration_c10 :
    ∃ s : ℚ, 0 < s ∧ s ≠ ((mathFloor s : ℤ) : ℚ) ∧
      format_duration s = "0分60秒" ∧ format_duration s ≠ "1分0秒" := by
  have h : format_duration (119/2 : ℚ) = "0分60秒" := by
    rw [format_duration, if_neg (by norm_num)]
    have h1 : mathFloor (119 / 2 / 60 : ℚ) = 0 := by norm_num [mathFloor]
    have h2 : pymod (119/2) 60 = 119/2 := by norm_num [pymod, mathFloor]
    have h3 : pythonRound (119/2 : ℚ) = 60 := by
      rw [pythonRound]
      have hf : mathFloor (119 / 2 : ℚ) = 59 := by norm_num [mathFloor]
      rw [hf]
      norm_num
    rw [h1, h2, h3]
    decide
  refine ⟨119/2, by norm_num, by norm_num [mathFloor], h, ?_⟩
  rw [h]
  decide

end GA4
